import Mathlib

/-!
Verification of the ML Model Builder backend (FastAPI service under
`backend/app/`).  The development shallowly embeds the model-selection
pipeline: the best-algorithm selector (`utils.select_best_algorithm`),
the metric calculator (`utils.calculate_metrics_classification`), the
regression-target preprocessing (`utils.preprocess_data`), the batch
training runners (`algorithms/classification.py`,
`algorithms/regression.py`), and the prediction-time feature
reconstruction and model deletion endpoints (`main.predict`,
`main.delete_model`).

Python floats are modelled as rationals (`ℚ`), Python dicts of metrics as
association lists, raised exceptions as `Except` errors, and calls into
sklearn (model fitting/prediction, scalar metric functions) as function
parameters, since sklearn is outside the repository.
-/

namespace MLModelBuilder

/-- A Python metrics dict: string keys to float values, in insertion order. -/
abbrev MetricsDict := List (String × ℚ)

/-- `d.get(k, default)` on a Python dict (first binding wins, as keys are unique). -/
def dictGetD (d : MetricsDict) (k : String) (dflt : ℚ) : ℚ :=
  match d.find? (fun p => p.1 == k) with
  | some p => p.2
  | none => dflt

/-- One entry of the `results` list handed to `select_best_algorithm`:
a dict with keys `algorithm`, `metrics`, `trainingTime` (and the fitted
model, irrelevant to selection). -/
structure AlgoResult where
  algorithm : String
  metrics : MetricsDict
  trainingTime : ℚ
deriving Repr, DecidableEq

/-- `utils.py` lines 229-233: classification weighted score
`metrics.get('accuracy', 0) * 0.5 + metrics.get('f1Score', 0) * 0.3 +
metrics.get('precision', 0) * 0.2`. -/
def classificationScore (r : AlgoResult) : ℚ :=
  dictGetD r.metrics "accuracy" 0 * (1/2) +
    dictGetD r.metrics "f1Score" 0 * (3/10) +
    dictGetD r.metrics "precision" 0 * (1/5)

/-- Python `max(l)` for a nonempty list; `utils.py` line 258 defaults to 1
when the list is empty (unreachable there, since `results` is nonempty). -/
def pyListMax : List ℚ → ℚ
  | [] => 1
  | a :: as => as.foldl max a

/-- The maximal `rootMeanSquaredError` over all candidates
(`utils.py` lines 257-258). -/
def maxRmseOf (results : List AlgoResult) : ℚ :=
  pyListMax (results.map (fun r => dictGetD r.metrics "rootMeanSquaredError" 0))

/-- `utils.py` lines 250-261: regression weighted score.
`normalized_rmse = min(rmse / max_rmse if max_rmse > 0 else 1, 1)` and
`score = r2 * 0.6 + (1 - normalized_rmse) * 0.4`. -/
def regressionScore (results : List AlgoResult) (r : AlgoResult) : ℚ :=
  let r2 := dictGetD r.metrics "r2Score" 0
  let rmse := dictGetD r.metrics "rootMeanSquaredError" 0
  let max_rmse := maxRmseOf results
  let normalized_rmse := min (if 0 < max_rmse then rmse / max_rmse else 1) 1
  r2 * (3/5) + (1 - normalized_rmse) * (2/5)

/-- The regression score exactly as the spec words it: when the maximal
RMSE is positive, `normalizedRMSE = min(candidate RMSE / max RMSE, 1)`,
otherwise `normalizedRMSE = 1`; score `0.6 * r2 + 0.4 * (1 - normalizedRMSE)`. -/
def specRegressionScore (max_rmse : ℚ) (r : AlgoResult) : ℚ :=
  let nrmse := if 0 < max_rmse
    then min (dictGetD r.metrics "rootMeanSquaredError" 0 / max_rmse) 1
    else 1
  (3/5) * dictGetD r.metrics "r2Score" 0 + (2/5) * (1 - nrmse)

/-- `score > best_score` where `best_score` starts at `float('-inf')`
(modelled as `none`): every real score beats the initial value. -/
def scoreBeats (s : ℚ) : Option ℚ → Bool
  | none => true
  | some b => decide (b < s)

/-- The selection loop of `select_best_algorithm` (`utils.py` lines
226-237 and 250-265): iterate over `results`, replacing the running best
exactly when the candidate's score is strictly greater. -/
def selectScan (f : AlgoResult → ℚ) :
    List AlgoResult → Option AlgoResult → Option ℚ → Option AlgoResult
  | [], best, _ => best
  | r :: rs, best, bestScore =>
    if scoreBeats (f r) bestScore then selectScan f rs (some r) (some (f r))
    else selectScan f rs best bestScore

/-- `utils.select_best_algorithm` (lines 213-282): `None` on an empty
list, otherwise the scan with the problem-type-specific score.  The
function returns the winning entry (the returned dict is rebuilt from the
winner's `algorithm`, `metrics`, `trainingTime` and model fields plus a
justification string). -/
def select_best_algorithm (results : List AlgoResult) (problem_type : String) :
    Option AlgoResult :=
  if results.isEmpty then none
  else if problem_type == "classification" then
    selectScan classificationScore results none none
  else
    selectScan (regressionScore results) results none none

lemma selectScan_go (f : AlgoResult → ℚ) :
    ∀ (l : List AlgoResult) (b : AlgoResult),
      ∃ l₁ c l₂, selectScan f l (some b) (some (f b)) = some c ∧
        b :: l = l₁ ++ c :: l₂ ∧
        (∀ x ∈ b :: l, f x ≤ f c) ∧
        (∀ x ∈ l₁, f x < f c) := by
  intro l
  induction l with
  | nil =>
    intro b
    exact ⟨[], b, [], rfl, rfl, by simp, by simp⟩
  | cons r rs ih =>
    intro b
    by_cases h : f b < f r
    · have hstep : selectScan f (r :: rs) (some b) (some (f b)) =
          selectScan f rs (some r) (some (f r)) := by
        simp [selectScan, scoreBeats, h]
      obtain ⟨l₁, c, l₂, heq, hdec, hmax, hlt⟩ := ih r
      refine ⟨b :: l₁, c, l₂, hstep.trans heq, by simp [hdec], ?_, ?_⟩
      · intro x hx
        rcases List.mem_cons.mp hx with hx | hx
        · subst hx
          exact le_of_lt (lt_of_lt_of_le h (hmax r (List.mem_cons_self _ _)))
        · exact hmax x (hdec ▸ hx)
      · intro x hx
        rcases List.mem_cons.mp hx with hx | hx
        · subst hx
          exact lt_of_lt_of_le h (hmax r (List.mem_cons_self _ _))
        · exact hlt x hx
    · have hstep : selectScan f (r :: rs) (some b) (some (f b)) =
          selectScan f rs (some b) (some (f b)) := by
        simp [selectScan, scoreBeats, h]
      obtain ⟨l₁, c, l₂, heq, hdec, hmax, hlt⟩ := ih b
      have hrle : f r ≤ f b := not_lt.mp h
      cases l₁ with
      | nil =>
        have hcb : c = b := by
          have := hdec
          simp at this
          exact this.1.symm
        have hrs : rs = l₂ := by
          have := hdec
          simp at this
          exact this.2
        refine ⟨[], c, r :: rs, hstep.trans heq, by simp [hcb, hrs], ?_, by simp⟩
        intro x hx
        rcases List.mem_cons.mp hx with hx | hx
        · subst hx
          exact hmax x (by simp [hcb])
        · rcases List.mem_cons.mp hx with hx | hx
          · subst hx
            exact hrle.trans (hmax b (List.mem_cons_self _ _))
          · exact hmax x (List.mem_cons_of_mem _ (hrs ▸ hx))
      | cons b' l₁' =>
        have hb' : b' = b ∧ rs = l₁' ++ c :: l₂ := by
          have := hdec
          simp at this
          exact ⟨this.1.symm, this.2⟩
        have hbc' : f b < f c := by
          have := hlt b' (List.mem_cons_self _ _)
          rwa [hb'.1] at this
        refine ⟨b :: r :: l₁', c, l₂, hstep.trans heq, by simp [hb'.2], ?_, ?_⟩
        · intro x hx
          rcases List.mem_cons.mp hx with hx | hx
          · subst hx
            exact le_of_lt hbc'
          · rcases List.mem_cons.mp hx with hx | hx
            · subst hx
              exact le_of_lt (lt_of_le_of_lt hrle hbc')
            · exact hmax x (List.mem_cons_of_mem _ (hb'.2 ▸ hx))
        · intro x hx
          rcases List.mem_cons.mp hx with hx | hx
          · subst hx
            exact hbc'
          · rcases List.mem_cons.mp hx with hx | hx
            · subst hx
              exact lt_of_le_of_lt hrle hbc'
            · exact hlt x (List.mem_cons_of_mem _ hx)

lemma selectScan_spec (f : AlgoResult → ℚ) (r : AlgoResult) (rs : List AlgoResult) :
    ∃ l₁ c l₂, selectScan f (r :: rs) none none = some c ∧
      r :: rs = l₁ ++ c :: l₂ ∧
      (∀ x ∈ r :: rs, f x ≤ f c) ∧
      (∀ x ∈ l₁, f x < f c) := by
  have hstep : selectScan f (r :: rs) none none =
      selectScan f rs (some r) (some (f r)) := by
    simp [selectScan, scoreBeats]
  obtain ⟨l₁, c, l₂, heq, hdec, hmax, hlt⟩ := selectScan_go f rs r
  exact ⟨l₁, c, l₂, hstep.trans heq, hdec, hmax, hlt⟩

lemma le_foldl_max (a : ℚ) (l : List ℚ) : a ≤ l.foldl max a := by
  induction l generalizing a with
  | nil => exact le_refl a
  | cons x xs ih => exact le_trans (le_max_left a x) (ih (max a x))

lemma mem_le_foldl_max (x a : ℚ) (l : List ℚ) (hx : x ∈ l) : x ≤ l.foldl max a := by
  induction l generalizing a with
  | nil => cases hx
  | cons y ys ih =>
    rcases List.mem_cons.mp hx with h | h
    · subst h
      exact le_trans (le_max_right a x) (le_foldl_max _ _)
    · exact ih _ h

lemma foldl_max_le (a c : ℚ) (l : List ℚ) (ha : a ≤ c) (hl : ∀ x ∈ l, x ≤ c) :
    l.foldl max a ≤ c := by
  induction l generalizing a with
  | nil => exact ha
  | cons y ys ih =>
    exact ih (max a y) (max_le ha (hl y (List.mem_cons_self _ _)))
      (fun x hx => hl x (List.mem_cons_of_mem _ hx))

lemma le_pyListMax (x : ℚ) (l : List ℚ) (hx : x ∈ l) : x ≤ pyListMax l := by
  cases l with
  | nil => cases hx
  | cons a as =>
    rcases List.mem_cons.mp hx with h | h
    · subst h
      exact le_foldl_max _ _
    · exact mem_le_foldl_max _ _ _ h

/-- The code's regression score equals the score as the spec words it. -/
lemma regressionScore_eq_spec (results : List AlgoResult) (r : AlgoResult) :
    regressionScore results r = specRegressionScore (maxRmseOf results) r := by
  unfold regressionScore specRegressionScore
  by_cases h : 0 < maxRmseOf results
  · simp only [h, if_true]
    ring
  · simp only [h, if_false, min_self]
    ring

/-- C1: for every non-empty list of candidate results,
`select_best_algorithm` with problem type `"classification"` returns the
candidate whose weighted score `0.5 * accuracy + 0.3 * f1Score +
0.2 * precision` (a missing metric counting as 0, via `dictGetD _ _ 0`)
is maximal over the list; when several candidates attain the maximal
score, the first in iteration order wins (every candidate strictly
before the winner scores strictly less). -/
theorem select_best_classification_first_max (results : List AlgoResult)
    (hne : results ≠ []) :
    ∃ l₁ best l₂,
      select_best_algorithm results "classification" = some best ∧
      results = l₁ ++ best :: l₂ ∧
      (∀ r ∈ results, classificationScore r ≤ classificationScore best) ∧
      (∀ r ∈ l₁, classificationScore r < classificationScore best) := by
  cases results with
  | nil => exact absurd rfl hne
  | cons r rs =>
    have hsel : select_best_algorithm (r :: rs) "classification" =
        selectScan classificationScore (r :: rs) none none := by
      simp [select_best_algorithm]
    obtain ⟨l₁, c, l₂, heq, hdec, hmax, hlt⟩ := selectScan_spec classificationScore r rs
    exact ⟨l₁, c, l₂, hsel.trans heq, hdec, hmax, hlt⟩

/-- Witness for C1 at a concrete two-candidate list: the second candidate
has the strictly larger weighted score and is selected. -/
theorem select_best_classification_first_max_witness :
    (([⟨"Logistic Regression", [ ("accuracy", 1/2) ], 1⟩,
       ⟨"Random Forest", [ ("accuracy", 9/10), ("f1Score", 4/5) ], 1⟩] :
        List AlgoResult) ≠ []) ∧
    (∃ l₁ best l₂,
      select_best_algorithm
        [⟨"Logistic Regression", [ ("accuracy", 1/2) ], 1⟩,
         ⟨"Random Forest", [ ("accuracy", 9/10), ("f1Score", 4/5) ], 1⟩]
        "classification" = some best ∧
      ([⟨"Logistic Regression", [ ("accuracy", 1/2) ], 1⟩,
        ⟨"Random Forest", [ ("accuracy", 9/10), ("f1Score", 4/5) ], 1⟩] :
         List AlgoResult) = l₁ ++ best :: l₂ ∧
      (∀ r ∈ ([⟨"Logistic Regression", [ ("accuracy", 1/2) ], 1⟩,
               ⟨"Random Forest", [ ("accuracy", 9/10), ("f1Score", 4/5) ], 1⟩] :
                List AlgoResult),
        classificationScore r ≤ classificationScore best) ∧
      (∀ r ∈ l₁, classificationScore r < classificationScore best)) :=
  ⟨by simp, select_best_classification_first_max _ (by simp)⟩

/-- C2: for every non-empty list of candidates, `select_best_algorithm`
with problem type `"regression"` returns the first candidate maximizing
`0.6 * r2Score + 0.4 * (1 - normalizedRMSE)` where `normalizedRMSE =
min(candidate RMSE / max RMSE, 1)` when the maximal RMSE is positive and
`normalizedRMSE = 1` otherwise; moreover (for non-negative RMSE values,
as RMSE is a square root) the maximal RMSE fails to be positive exactly
when every candidate's RMSE is 0, so no division by zero occurs. -/
theorem select_best_regression_first_max (results : List AlgoResult)
    (hne : results ≠ [])
    (hnn : ∀ r ∈ results, 0 ≤ dictGetD r.metrics "rootMeanSquaredError" 0) :
    (∃ l₁ best l₂,
      select_best_algorithm results "regression" = some best ∧
      results = l₁ ++ best :: l₂ ∧
      (∀ r ∈ results,
        specRegressionScore (maxRmseOf results) r ≤
          specRegressionScore (maxRmseOf results) best) ∧
      (∀ r ∈ l₁,
        specRegressionScore (maxRmseOf results) r <
          specRegressionScore (maxRmseOf results) best)) ∧
    (¬ 0 < maxRmseOf results ↔
      ∀ r ∈ results, dictGetD r.metrics "rootMeanSquaredError" 0 = 0) := by
  constructor
  · cases results with
    | nil => exact absurd rfl hne
    | cons r rs =>
      have hsel : select_best_algorithm (r :: rs) "regression" =
          selectScan (regressionScore (r :: rs)) (r :: rs) none none := by
        simp [select_best_algorithm]
      obtain ⟨l₁, c, l₂, heq, hdec, hmax, hlt⟩ :=
        selectScan_spec (regressionScore (r :: rs)) r rs
      refine ⟨l₁, c, l₂, hsel.trans heq, hdec, ?_, ?_⟩
      · intro x hx
        have := hmax x hx
        rwa [regressionScore_eq_spec, regressionScore_eq_spec] at this
      · intro x hx
        have := hlt x hx
        rwa [regressionScore_eq_spec, regressionScore_eq_spec] at this
  · constructor
    · intro hmax r hr
      have hle : dictGetD r.metrics "rootMeanSquaredError" 0 ≤ maxRmseOf results := by
        apply le_pyListMax
        exact List.mem_map_of_mem _ hr
      exact le_antisymm (hle.trans (not_lt.mp hmax)) (hnn r hr)
    · intro hzero
      cases results with
      | nil => exact absurd rfl hne
      | cons r rs =>
        have : maxRmseOf (r :: rs) ≤ 0 := by
          unfold maxRmseOf pyListMax
          simp only [List.map_cons]
          apply foldl_max_le
          · exact le_of_eq (hzero r (List.mem_cons_self _ _))
          · intro x hx
            obtain ⟨y, hy, hyx⟩ := List.mem_map.mp hx
            exact le_of_eq (hyx ▸ hzero y (List.mem_cons_of_mem _ hy))
        exact not_lt.mpr this

/-- Witness for C2 at a concrete two-candidate list with non-negative
RMSE values. -/
theorem select_best_regression_first_max_witness :
    (([⟨"Linear Regression", [ ("r2Score", 1/2), ("rootMeanSquaredError", 2) ], 1⟩,
       ⟨"Ridge Regression", [ ("r2Score", 9/10), ("rootMeanSquaredError", 1) ], 1⟩] :
        List AlgoResult) ≠ []) ∧
    ((∃ l₁ best l₂,
      select_best_algorithm
        [⟨"Linear Regression", [ ("r2Score", 1/2), ("rootMeanSquaredError", 2) ], 1⟩,
         ⟨"Ridge Regression", [ ("r2Score", 9/10), ("rootMeanSquaredError", 1) ], 1⟩]
        "regression" = some best ∧
      ([⟨"Linear Regression", [ ("r2Score", 1/2), ("rootMeanSquaredError", 2) ], 1⟩,
        ⟨"Ridge Regression", [ ("r2Score", 9/10), ("rootMeanSquaredError", 1) ], 1⟩] :
         List AlgoResult) = l₁ ++ best :: l₂ ∧
      (∀ r ∈ ([⟨"Linear Regression", [ ("r2Score", 1/2), ("rootMeanSquaredError", 2) ], 1⟩,
               ⟨"Ridge Regression", [ ("r2Score", 9/10), ("rootMeanSquaredError", 1) ], 1⟩] :
                List AlgoResult),
        specRegressionScore (maxRmseOf
          [⟨"Linear Regression", [ ("r2Score", 1/2), ("rootMeanSquaredError", 2) ], 1⟩,
           ⟨"Ridge Regression", [ ("r2Score", 9/10), ("rootMeanSquaredError", 1) ], 1⟩]) r ≤
          specRegressionScore (maxRmseOf
          [⟨"Linear Regression", [ ("r2Score", 1/2), ("rootMeanSquaredError", 2) ], 1⟩,
           ⟨"Ridge Regression", [ ("r2Score", 9/10), ("rootMeanSquaredError", 1) ], 1⟩]) best) ∧
      (∀ r ∈ l₁,
        specRegressionScore (maxRmseOf
          [⟨"Linear Regression", [ ("r2Score", 1/2), ("rootMeanSquaredError", 2) ], 1⟩,
           ⟨"Ridge Regression", [ ("r2Score", 9/10), ("rootMeanSquaredError", 1) ], 1⟩]) r <
          specRegressionScore (maxRmseOf
          [⟨"Linear Regression", [ ("r2Score", 1/2), ("rootMeanSquaredError", 2) ], 1⟩,
           ⟨"Ridge Regression", [ ("r2Score", 9/10), ("rootMeanSquaredError", 1) ], 1⟩]) best)) ∧
    (¬ 0 < maxRmseOf
        [⟨"Linear Regression", [ ("r2Score", 1/2), ("rootMeanSquaredError", 2) ], 1⟩,
         ⟨"Ridge Regression", [ ("r2Score", 9/10), ("rootMeanSquaredError", 1) ], 1⟩] ↔
      ∀ r ∈ ([⟨"Linear Regression", [ ("r2Score", 1/2), ("rootMeanSquaredError", 2) ], 1⟩,
              ⟨"Ridge Regression", [ ("r2Score", 9/10), ("rootMeanSquaredError", 1) ], 1⟩] :
               List AlgoResult),
        dictGetD r.metrics "rootMeanSquaredError" 0 = 0)) :=
  ⟨by simp, select_best_regression_first_max _ (by simp)
    (by
      intro r hr
      rcases List.mem_cons.mp hr with h | h
      · subst h
        simp [dictGetD]
      · rcases List.mem_cons.mp h with h | h
        · subst h
          simp [dictGetD]
        · cases h)⟩

/-- The payload a successful training function returns (`classification.py`
and `regression.py`): algorithm name, test-set predictions, training time
(the fitted model object is opaque and irrelevant to the batch loop). -/
structure TrainResult where
  algorithm : String
  y_pred : List ℚ
  trainingTime : ℚ
deriving Repr, DecidableEq

/-- The batch loop shared by `train_all_classification_algorithms`
(`classification.py` lines 177-186) and `train_all_regression_algorithms`
(`regression.py` lines 181-190): each algorithm either returns a result
(`some`) or raises (`none`); a raised exception is caught, logged and the
loop continues with the next algorithm. -/
def train_all_algorithms : List (Option TrainResult) → List TrainResult
  | [] => []
  | some r :: rest => r :: train_all_algorithms rest
  | none :: rest => train_all_algorithms rest

/-- A FastAPI `HTTPException`: status code and detail message. -/
structure HttpError where
  status : ℕ
  detail : String
deriving Repr, DecidableEq

/-- `main.py` lines 297-298: after the batch runner, an empty result list
raises `HTTPException(500, "No algorithms could be trained")`. -/
def analyze_check_results (results : List TrainResult) :
    Except HttpError (List TrainResult) :=
  if results.isEmpty then .error ⟨500, "No algorithms could be trained"⟩
  else .ok results

lemma train_all_skip (pre post : List (Option TrainResult)) :
    train_all_algorithms (pre ++ none :: post) = train_all_algorithms (pre ++ post) := by
  induction pre with
  | nil => simp [train_all_algorithms]
  | cons o pre ih => cases o <;> simp [train_all_algorithms, ih]

lemma mem_train_all (r : TrainResult) (outcomes : List (Option TrainResult)) :
    some r ∈ outcomes → r ∈ train_all_algorithms outcomes := by
  induction outcomes with
  | nil => intro h; cases h
  | cons o rest ih =>
    intro h
    rcases List.mem_cons.mp h with heq | hr
    · subst heq
      simp [train_all_algorithms]
    · cases o with
      | none => simpa [train_all_algorithms] using ih hr
      | some r' =>
        simp only [train_all_algorithms]
        exact List.mem_cons_of_mem _ (ih hr)

lemma train_all_nil_of_all_none (outcomes : List (Option TrainResult))
    (h : ∀ o ∈ outcomes, o = none) : train_all_algorithms outcomes = [] := by
  induction outcomes with
  | nil => rfl
  | cons o rest ih =>
    have ho := h o (List.mem_cons_self _ _)
    subst ho
    exact ih (fun o ho => h o (List.mem_cons_of_mem _ ho))

/-- C5: in both batch runners, an exception in one algorithm is caught
and that algorithm skipped without affecting the rest (removing a failing
entry leaves the result list unchanged, and every succeeding algorithm's
result appears); when every algorithm fails, the analyze pipeline reports
the distinct error `"No algorithms could be trained"` rather than an
empty result. -/
theorem batch_runner_isolates_failures (outcomes : List (Option TrainResult)) :
    (∀ pre post, outcomes = pre ++ none :: post →
      train_all_algorithms outcomes = train_all_algorithms (pre ++ post)) ∧
    (∀ r, some r ∈ outcomes → r ∈ train_all_algorithms outcomes) ∧
    ((∀ o ∈ outcomes, o = none) →
      analyze_check_results (train_all_algorithms outcomes) =
        .error ⟨500, "No algorithms could be trained"⟩) := by
  refine ⟨?_, ?_, ?_⟩
  · intro pre post hdec
    rw [hdec]
    exact train_all_skip pre post
  · exact fun r h => mem_train_all r outcomes h
  · intro h
    rw [train_all_nil_of_all_none outcomes h]
    rfl

/-- Witness for C5: a concrete roster where the first algorithm raises
and the second succeeds, and a roster where all fail. -/
theorem batch_runner_isolates_failures_witness :
    train_all_algorithms [none, some ⟨"Random Forest", [1], 1⟩] =
      train_all_algorithms ([] ++ [some ⟨"Random Forest", [1], 1⟩]) ∧
    (⟨"Random Forest", [1], 1⟩ : TrainResult) ∈
      train_all_algorithms [none, some ⟨"Random Forest", [1], 1⟩] ∧
    analyze_check_results (train_all_algorithms [none, none]) =
      .error ⟨500, "No algorithms could be trained"⟩ := by
  have h1 := batch_runner_isolates_failures [none, some ⟨"Random Forest", [1], 1⟩]
  have h2 := batch_runner_isolates_failures [none, none]
  exact ⟨h1.1 [] [some ⟨"Random Forest", [1], 1⟩] rfl,
    h1.2.1 _ (by simp),
    h2.2.2 (by simp)⟩

/-- `classification.py` line 84 (`train_knn`):
`n_neighbors = min(max(int(np.sqrt(len(X_train))), 3), 20)`.  Python's
`int(...)` truncates the float square root toward zero, i.e. takes the
floor: `Nat.sqrt` is the floor square root. -/
def train_knn_n_neighbors (train_size : ℕ) : ℕ :=
  min (max (Nat.sqrt train_size) 3) 20

/-- `regression.py` line 114 (`train_knn_regressor`): the identical
formula. -/
def train_knn_regressor_n_neighbors (train_size : ℕ) : ℕ :=
  min (max (Nat.sqrt train_size) 3) 20

/-- The square root rounded to the NEAREST integer, as the claim words it:
`round(sqrt n) = Nat.sqrt n + 1` exactly when the fractional part of
`sqrt n` is at least one half, i.e. when `(Nat.sqrt n)^2 + Nat.sqrt n + 1 ≤ n`. -/
def roundSqrt (n : ℕ) : ℕ :=
  let s := Nat.sqrt n
  if s * s + s + 1 ≤ n then s + 1 else s

lemma natSqrt_eq (n k : ℕ) (h1 : k * k ≤ n) (h2 : n < (k + 1) * (k + 1)) :
    Nat.sqrt n = k :=
  le_antisymm (Nat.le_of_lt_succ (Nat.sqrt_lt.mpr h2)) (Nat.le_sqrt.mpr h1)

/-- C6 counterexample: for a training set of 13 rows, `sqrt 13 ≈ 3.606`
rounds to 4, so the claimed formula `clamp(round(sqrt n), 3, 20)` gives 4,
but both runners compute `int(np.sqrt(13)) = 3` (truncation), giving
`k = 3`. -/
theorem knn_k_round_sqrt_counterexample :
    min (max (roundSqrt 13) 3) 20 = 4 ∧
    train_knn_n_neighbors 13 = 3 ∧
    train_knn_regressor_n_neighbors 13 = 3 := by
  have h13 : Nat.sqrt 13 = 3 := natSqrt_eq 13 3 (by norm_num) (by norm_num)
  refine ⟨?_, ?_, ?_⟩ <;>
    norm_num [roundSqrt, train_knn_n_neighbors, train_knn_regressor_n_neighbors,
      h13]

/-- C6 (amended): both k-nearest-neighbors runners use
`k = clamp(floor(sqrt(train_size)), 3, 20)` — the square root rounded
DOWN (truncated), then clamped to `[3, 20]`.  The two runners agree, `k`
always lies in `[3, 20]`, and on the unclamped range `9 ≤ n ≤ 440` it is
exactly the integer (floor) square root: `k² ≤ n < (k+1)²`. -/
theorem knn_k_clamped_floor_sqrt (n : ℕ) :
    train_knn_regressor_n_neighbors n = train_knn_n_neighbors n ∧
    3 ≤ train_knn_n_neighbors n ∧
    train_knn_n_neighbors n ≤ 20 ∧
    (9 ≤ n → n ≤ 440 →
      train_knn_n_neighbors n * train_knn_n_neighbors n ≤ n ∧
      n < (train_knn_n_neighbors n + 1) * (train_knn_n_neighbors n + 1)) := by
  refine ⟨rfl, ?_, ?_, ?_⟩
  · unfold train_knn_n_neighbors
    omega
  · unfold train_knn_n_neighbors
    omega
  · intro h9 h440
    have h9s : Nat.sqrt 9 = 3 := natSqrt_eq 9 3 (by norm_num) (by norm_num)
    have h440s : Nat.sqrt 440 = 20 := natSqrt_eq 440 20 (by norm_num) (by norm_num)
    have h3 : 3 ≤ Nat.sqrt n := by
      have h := Nat.sqrt_le_sqrt h9
      rwa [h9s] at h
    have h20 : Nat.sqrt n ≤ 20 := by
      have h := Nat.sqrt_le_sqrt h440
      rwa [h440s] at h
    have hk : train_knn_n_neighbors n = Nat.sqrt n := by
      unfold train_knn_n_neighbors
      omega
    rw [hk]
    exact ⟨Nat.sqrt_le n, Nat.lt_succ_sqrt n⟩

/-- Witness for the amended C6 at `n = 13`: `k = 3` with `9 ≤ 13 < 16`. -/
theorem knn_k_clamped_floor_sqrt_witness :
    3 ≤ train_knn_n_neighbors 13 ∧
    train_knn_n_neighbors 13 ≤ 20 ∧
    train_knn_n_neighbors 13 * train_knn_n_neighbors 13 ≤ 13 ∧
    13 < (train_knn_n_neighbors 13 + 1) * (train_knn_n_neighbors 13 + 1) := by
  have h := knn_k_clamped_floor_sqrt 13
  exact ⟨h.2.1, h.2.2.1, (h.2.2.2 (by norm_num) (by norm_num)).1,
    (h.2.2.2 (by norm_num) (by norm_num)).2⟩

/-- The state `main.delete_model` acts on: the model registry (here the
set of registered model ids) and whether the artifact blob
`models/{id}.joblib` exists on disk. -/
structure DeleteState where
  registry : List String
  fileOnDisk : Bool
deriving Repr, DecidableEq

/-- `main.delete_model` (`main.py` lines 628-652).  `removeFails` models
`os.remove` raising `OSError` (the exception is only printed).  404 is
raised only when the id is in neither the registry nor on disk; otherwise
the registry entry (when present) is removed and the response is
`{"status": "deleted", "modelId": id}` even when file removal failed. -/
def delete_model (st : DeleteState) (model_id : String) (removeFails : Bool) :
    Except HttpError (DeleteState × String × String) :=
  if model_id ∉ st.registry ∧ st.fileOnDisk = false then
    .error ⟨404, "Model not found"⟩
  else
    let registry' := st.registry.filter (fun k => k != model_id)
    let fileOnDisk' := st.fileOnDisk && removeFails
    .ok (⟨registry', fileOnDisk'⟩, ("deleted", model_id))

/-- C10: `delete_model` raises 404 exactly when the registry entry and
the artifact file are both absent; in every other case it returns
`("deleted", id)` and removes the registry entry (other entries kept),
and when the artifact file exists but its removal fails the response is
still a success while the blob remains on disk. -/
theorem delete_model_spec (st : DeleteState) (model_id : String) (removeFails : Bool) :
    ((model_id ∉ st.registry ∧ st.fileOnDisk = false) →
      delete_model st model_id removeFails = .error ⟨404, "Model not found"⟩) ∧
    (∀ e, delete_model st model_id removeFails = .error e →
      model_id ∉ st.registry ∧ st.fileOnDisk = false ∧ e = ⟨404, "Model not found"⟩) ∧
    ((model_id ∈ st.registry ∨ st.fileOnDisk = true) →
      ∃ st', delete_model st model_id removeFails =
          .ok (st', ("deleted", model_id)) ∧
        model_id ∉ st'.registry ∧
        (∀ k ∈ st.registry, k ≠ model_id → k ∈ st'.registry) ∧
        (st.fileOnDisk = true → removeFails = true → st'.fileOnDisk = true)) := by
  by_cases hc : model_id ∉ st.registry ∧ st.fileOnDisk = false
  · refine ⟨fun _ => ?_, fun e he => ?_, fun habs => ?_⟩
    · rw [delete_model, if_pos hc]
    · rw [delete_model, if_pos hc] at he
      injection he with h
      exact ⟨hc.1, hc.2, h.symm⟩
    · rcases habs with h | h
      · exact absurd h hc.1
      · rw [hc.2] at h
        cases h
  · refine ⟨fun h => absurd h hc, fun e he => ?_, fun _ => ?_⟩
    · rw [delete_model, if_neg hc] at he
      exact Except.noConfusion he
    · refine ⟨⟨st.registry.filter (fun k => k != model_id), st.fileOnDisk && removeFails⟩,
        ?_, ?_, ?_, ?_⟩
      · rw [delete_model, if_neg hc]
      · intro hmem
        have := List.of_mem_filter hmem
        simp at this
      · intro k hk hne
        apply List.mem_filter.mpr
        exact ⟨hk, by simp [hne]⟩
      · intro h1 h2
        simp [h1, h2]

/-- Witness for C10: deleting a registered model whose blob removal
fails still reports success, drops the registry entry, and leaves the
blob on disk. -/
theorem delete_model_spec_witness :
    ∃ st', delete_model ⟨["m1", "m2"], true⟩ "m1" true =
        .ok (st', ("deleted", "m1")) ∧
      "m1" ∉ st'.registry ∧
      (∀ k ∈ (⟨["m1", "m2"], true⟩ : DeleteState).registry, k ≠ "m1" → k ∈ st'.registry) ∧
      ((⟨["m1", "m2"], true⟩ : DeleteState).fileOnDisk = true → true = true →
        st'.fileOnDisk = true) :=
  (delete_model_spec ⟨["m1", "m2"], true⟩ "m1" true).2.2 (Or.inl (by simp))

/-- The sklearn scalar metric functions `calculate_metrics_classification`
calls (`utils.py` lines 161-178).  sklearn is outside the repository, so
the functions are abstract parameters: the four always-computed metrics
are total (the code does not guard them), while the two ROC-AUC entry
points may raise (`Except.error`), which the code catches.
`roc_auc_score` receives true labels and one probability column;
`roc_auc_score_ovr` receives the full probability matrix with
`multi_class='ovr', average='weighted'`. -/
structure SkMetricFns where
  accuracy_score : List ℚ → List ℚ → ℚ
  precision_score : List ℚ → List ℚ → ℚ
  recall_score : List ℚ → List ℚ → ℚ
  f1_score : List ℚ → List ℚ → ℚ
  roc_auc_score : List ℚ → List ℚ → Except String ℚ
  roc_auc_score_ovr : List ℚ → List (List ℚ) → Except String ℚ

/-- Column `j` of a row-major matrix (`y_pred_proba[:, j]`). -/
def matrixCol (m : List (List ℚ)) (j : ℕ) : List ℚ :=
  m.map (fun row => row.getD j 0)

/-- `m.shape[1]`: the number of columns of a rectangular row-major matrix. -/
def matrixWidth (m : List (List ℚ)) : ℕ :=
  (m.headD []).length

/-- `utils.calculate_metrics_classification` (lines 159-182): the dict of
the four weighted metrics, plus a `rocAuc` entry only when a probability
matrix is supplied.  With at most two distinct true labels
(`len(np.unique(y_true)) <= 2`) the positive-class column
`y_pred_proba[:, 1]` is scored (or the single column when
`shape[1] <= 1`; passing the `(n, 1)` matrix itself, as the code does,
ravels to that column); otherwise one-vs-rest weighted averaging is used.
Any exception while computing ROC-AUC yields `rocAuc = 0.0`. -/
def calculate_metrics_classification (sk : SkMetricFns) (y_true y_pred : List ℚ)
    (y_pred_proba : Option (List (List ℚ))) : MetricsDict :=
  let base : MetricsDict :=
    [ ("accuracy", sk.accuracy_score y_true y_pred),
      ("precision", sk.precision_score y_true y_pred),
      ("recall", sk.recall_score y_true y_pred),
      ("f1Score", sk.f1_score y_true y_pred) ]
  match y_pred_proba with
  | none => base
  | some proba =>
    let attempt : Except String ℚ :=
      if y_true.dedup.length ≤ 2 then
        sk.roc_auc_score y_true
          (if 1 < matrixWidth proba then matrixCol proba 1 else matrixCol proba 0)
      else
        sk.roc_auc_score_ovr y_true proba
    match attempt with
    | .ok v => base ++ [ ("rocAuc", v) ]
    | .error _ => base ++ [ ("rocAuc", 0) ]

/-- Lookup in a metrics dict: `some` value when the key is present. -/
def dictFind (d : MetricsDict) (k : String) : Option ℚ :=
  (d.find? (fun p => p.1 == k)).map (fun p => p.2)

/-- C7: the classification metric dict always contains the four entries
`accuracy`, `precision`, `recall`, `f1Score` (the weighted sklearn
scores); it contains `rocAuc` exactly when a probability matrix is
supplied, and then: with at most two distinct true labels the value comes
from scoring the positive-class column (column 1, or the single column 0
when the matrix has at most one column), otherwise from one-vs-rest
weighted scoring of the matrix, with any raised exception replaced by
`0.0`. -/
theorem classification_metrics_dict (sk : SkMetricFns) (y_true y_pred : List ℚ)
    (y_pred_proba : Option (List (List ℚ))) :
    dictFind (calculate_metrics_classification sk y_true y_pred y_pred_proba)
        "accuracy" = some (sk.accuracy_score y_true y_pred) ∧
    dictFind (calculate_metrics_classification sk y_true y_pred y_pred_proba)
        "precision" = some (sk.precision_score y_true y_pred) ∧
    dictFind (calculate_metrics_classification sk y_true y_pred y_pred_proba)
        "recall" = some (sk.recall_score y_true y_pred) ∧
    dictFind (calculate_metrics_classification sk y_true y_pred y_pred_proba)
        "f1Score" = some (sk.f1_score y_true y_pred) ∧
    (y_pred_proba = none →
      dictFind (calculate_metrics_classification sk y_true y_pred y_pred_proba)
        "rocAuc" = none) ∧
    (∀ proba, y_pred_proba = some proba →
      dictFind (calculate_metrics_classification sk y_true y_pred y_pred_proba)
          "rocAuc" =
        some (match
          (if y_true.dedup.length ≤ 2 then
            sk.roc_auc_score y_true
              (if 1 < matrixWidth proba then matrixCol proba 1 else matrixCol proba 0)
          else
            sk.roc_auc_score_ovr y_true proba) with
          | .ok v => v
          | .error _ => 0)) := by
  cases y_pred_proba with
  | none =>
    refine ⟨rfl, rfl, rfl, rfl, fun _ => rfl, fun proba hp => ?_⟩
    cases hp
  | some proba =>
    have hform : calculate_metrics_classification sk y_true y_pred (some proba) =
        [ ("accuracy", sk.accuracy_score y_true y_pred),
          ("precision", sk.precision_score y_true y_pred),
          ("recall", sk.recall_score y_true y_pred),
          ("f1Score", sk.f1_score y_true y_pred),
          ("rocAuc", match
            (if y_true.dedup.length ≤ 2 then
              sk.roc_auc_score y_true
                (if 1 < matrixWidth proba then matrixCol proba 1 else matrixCol proba 0)
            else
              sk.roc_auc_score_ovr y_true proba) with
            | .ok v => v
            | .error _ => 0) ] := by
      unfold calculate_metrics_classification
      cases hatt : (if y_true.dedup.length ≤ 2 then
          sk.roc_auc_score y_true
            (if 1 < matrixWidth proba then matrixCol proba 1 else matrixCol proba 0)
        else
          sk.roc_auc_score_ovr y_true proba) with
      | ok v => simp [hatt]
      | error e => simp [hatt]
    refine ⟨by rw [hform]; rfl, by rw [hform]; rfl, by rw [hform]; rfl,
      by rw [hform]; rfl,
      fun h => Option.noConfusion h, fun proba' hp => ?_⟩
    injection hp with hp
    subst hp
    rw [hform]
    rfl

/-- A concrete instance of the sklearn metric functions, used to witness
the metric-dict theorem on a closed input. -/
def skSample : SkMetricFns where
  accuracy_score := fun _ _ => 1
  precision_score := fun _ _ => 9/10
  recall_score := fun _ _ => 4/5
  f1_score := fun _ _ => 17/20
  roc_auc_score := fun _ col => .ok (col.headD 0)
  roc_auc_score_ovr := fun _ _ => .error "multiclass format is not supported"

/-- Witness for C7 on a closed input: two distinct binary labels and a
two-column probability matrix, so the positive-class column is scored. -/
theorem classification_metrics_dict_witness :
    dictFind (calculate_metrics_classification skSample [0, 1] [0, 1]
        (some [[1/2, 1/2], [1/4, 3/4]])) "accuracy" = some 1 ∧
    dictFind (calculate_metrics_classification skSample [0, 1] [0, 1]
        (some [[1/2, 1/2], [1/4, 3/4]])) "f1Score" = some (17/20) ∧
    dictFind (calculate_metrics_classification skSample [0, 1] [0, 1]
        (some [[1/2, 1/2], [1/4, 3/4]])) "rocAuc" = some (1/2) := by
  have h := classification_metrics_dict skSample [0, 1] [0, 1]
    (some [[1/2, 1/2], [1/4, 3/4]])
  refine ⟨h.1, h.2.2.2.1, ?_⟩
  have h6 := h.2.2.2.2.2 [[1/2, 1/2], [1/4, 3/4]] rfl
  rw [h6]
  rfl

/-- A feature value arriving in a prediction request's JSON `features`
map: either a number or a string. -/
inductive FeatVal where
  | num (q : ℚ)
  | str (s : String)
deriving Repr, DecidableEq

/-- Python `str(value)`.  For the string-valued categorical features the
claims exercise, this is the identity; the numeric case is Lean's
rendering of the rational. -/
def pyStr : FeatVal → String
  | .num q => toString q
  | .str s => s

/-- Value of string `s` as a decimal number: optional sign, then either
digits with an optional fractional part or a fractional part alone,
consuming the whole string — the strings `pd.to_numeric` accepts
(exponent and special-value forms are not used by the data in question). -/
def parseDecimal (s : String) : Option ℚ :=
  match s.data with
  | [] => none
  | c0 :: rest0 =>
    let signed : Bool := c0 = '-'
    let body : List Char := if c0 = '-' ∨ c0 = '+' then rest0 else c0 :: rest0
    let ip := body.takeWhile (fun c => c.isDigit)
    let rest := body.dropWhile (fun c => c.isDigit)
    let ipVal : ℚ := (ip.foldl (fun a c => 10 * a + (c.toNat - '0'.toNat)) 0 : ℕ)
    match rest with
    | [] =>
      if ip.isEmpty then none
      else some (if signed then -ipVal else ipVal)
    | '.' :: rest2 =>
      let fp := rest2.takeWhile (fun c => c.isDigit)
      let rest3 := rest2.dropWhile (fun c => c.isDigit)
      if rest3.isEmpty ∧ (¬ ip.isEmpty ∨ ¬ fp.isEmpty) then
        let fpVal : ℚ :=
          ((fp.foldl (fun a c => 10 * a + (c.toNat - '0'.toNat)) 0 : ℕ) : ℚ) /
            ((10 : ℚ) ^ fp.length)
        some (if signed then -(ipVal + fpVal) else ipVal + fpVal)
      else none
    | _ => none

/-- `pd.to_numeric` on one value: a number passes through, a string is
parsed, anything unparsable is `none` (`errors='coerce'` makes it NaN,
`errors='raise'` raises). -/
def to_numeric_feat : FeatVal → Option ℚ
  | .num q => some q
  | .str s => parseDecimal s

/-- One stored `LabelEncoder`: `classes_` is the sorted list of distinct
training-time values; `transform` maps a value to its index therein. -/
structure LabelEnc where
  classes : List String
deriving Repr, DecidableEq

/-- `le.transform([value])[0]`: the training-time integer code, the index
of `value` in `classes_`. -/
def encTransform (enc : LabelEnc) (value : String) : ℕ :=
  enc.classes.indexOf value

/-- Python's `repr` of a list of strings, as interpolated into the
error detail by the f-string in `main.py` lines 462-463. -/
def pyReprStrList (l : List String) : String :=
  "[" ++ String.intercalate ", " (l.map (fun s => "'" ++ s ++ "'")) ++ "]"

/-- `main.py` lines 459-464: the 400 error for a categorical value never
seen in training, naming the column and listing the vocabulary truncated
to its first 20 entries (with an ellipsis when longer). -/
def unseenValueError (value col : String) (classes : List String) : HttpError :=
  ⟨400, "Invalid value '" ++ value ++ "' for column '" ++ col ++ "'. " ++
    "Valid values are: " ++ pyReprStrList (classes.take 20) ++
    (if 20 < classes.length then "..." else "")⟩

/-- `main.py` lines 479-482: the 400 error when a column without an
encoder receives a non-numeric value (artifact with encoders present). -/
def nonNumericError (col : String) (v : FeatVal) : HttpError :=
  ⟨400, "Column '" ++ col ++ "' must be numeric, but got '" ++ pyStr v ++ "'"⟩

/-- `main.py` lines 499-504: the 400 error when a legacy artifact (no
encoders stored) receives a non-numeric value. -/
def legacyNonNumericError (col : String) (v : FeatVal) : HttpError :=
  ⟨400, "Column '" ++ col ++ "' must be numeric, but got '" ++ pyStr v ++ "'. " ++
    "This model was created before categorical encoding was implemented. " ++
    "Please recreate the model or ensure all values are numeric."⟩

/-- The stored model artifact as `main.predict` reads it back
(`main.py` lines 429-433): ordered input columns, per-column encoders
(empty for legacy artifacts), the optional fitted scaler (an opaque
row transform), and the problem type. -/
structure ModelArtifact where
  input_columns : List String
  label_encoders : List (String × LabelEnc)
  scaler : Option (List ℚ → List ℚ)
  problem_type : String

/-- Lookup of a column's stored encoder (`col in label_encoders`). -/
def encoderFor (encoders : List (String × LabelEnc)) (col : String) :
    Option LabelEnc :=
  (encoders.find? (fun p => p.1 == col)).map (fun p => p.2)

/-- Lookup of a column's value in the request's `features` map. -/
def featLookup (features : List (String × FeatVal)) (col : String) :
    Option FeatVal :=
  (features.find? (fun p => p.1 == col)).map (fun p => p.2)

/-- `main.py` lines 436-438: the first loop rejects a request missing any
input column before any encoding happens. -/
def check_features (features : List (String × FeatVal)) :
    List String → Except HttpError Unit
  | [] => .ok ()
  | col :: cols =>
    if (featLookup features col).isSome then check_features features cols
    else .error ⟨400, "Missing feature: " ++ col⟩

/-- `main.py` lines 448-482: encoding of one column when the artifact has
encoders.  A column with a stored encoder looks the string-cast value up
in the vocabulary — mapping it to its training-time code, rejecting an
unseen value with the vocabulary-listing 400 error; a column without an
encoder is coerced to numeric, rejecting with a 400 error on failure. -/
def encode_feature (encoders : List (String × LabelEnc)) (col : String)
    (v : FeatVal) : Except HttpError ℚ :=
  match encoderFor encoders col with
  | some enc =>
    let value := pyStr v
    if value ∈ enc.classes then .ok ((encTransform enc value : ℕ) : ℚ)
    else .error (unseenValueError value col enc.classes)
  | none =>
    match to_numeric_feat v with
    | some q => .ok q
    | none => .error (nonNumericError col v)

/-- The per-column loop of the encoders-present branch, building the
numeric feature row in input-column order. -/
def encodeRowNew (encoders : List (String × LabelEnc))
    (features : List (String × FeatVal)) :
    List String → Except HttpError (List ℚ)
  | [] => .ok []
  | col :: cols =>
    match featLookup features col with
    | none => .error ⟨400, "Missing feature: " ++ col⟩
    | some v =>
      match encode_feature encoders col v with
      | .ok q => (encodeRowNew encoders features cols).map (fun rest => q :: rest)
      | .error e => .error e

/-- `main.py` lines 493-505: the legacy branch (artifact without
encoders): every value must coerce to numeric; the first that does not is
rejected with a 400 error naming its column. -/
def encodeRowLegacy (features : List (String × FeatVal)) :
    List String → Except HttpError (List ℚ)
  | [] => .ok []
  | col :: cols =>
    match featLookup features col with
    | none => .error ⟨400, "Missing feature: " ++ col⟩
    | some v =>
      match to_numeric_feat v with
      | some q => (encodeRowLegacy features cols).map (fun rest => q :: rest)
      | none => .error (legacyNonNumericError col v)

/-- `main.predict`, preprocessing phase (`main.py` lines 436-505).
Returns the pair `(input_data, input_data_scaled)`: the encoded feature
row, and the row the prediction call receives.  With encoders present the
stored scaler (when any) is applied; the legacy branch never applies the
scaler (`input_data_scaled = input_data`). -/
def predict_preprocess (art : ModelArtifact)
    (features : List (String × FeatVal)) :
    Except HttpError (List ℚ × List ℚ) :=
  match check_features features art.input_columns with
  | .error e => .error e
  | .ok _ =>
    if art.label_encoders.isEmpty then
      match encodeRowLegacy features art.input_columns with
      | .error e => .error e
      | .ok row => .ok (row, row)
    else
      match encodeRowNew art.label_encoders features art.input_columns with
      | .error e => .error e
      | .ok row =>
        match art.scaler with
        | some f => .ok (row, f row)
        | none => .ok (row, row)

/-- What `main.predict` returns to the caller (prediction plus optional
class probabilities). -/
structure PredictOutput where
  prediction : ℚ
  probabilities : Option (List ℚ)
deriving Repr

/-- `main.predict`, prediction phase (`main.py` lines 507-513).  The
model's `predict`/`predict_proba` are abstract parameters
(`model_predict_proba = none` models a model without `predict_proba`).
The prediction is computed on `input_data_scaled`; the probabilities, when
the problem type is classification and the model supports them, are
computed on `input_data` — the encoded but UN-scaled row. -/
def predict_run (art : ModelArtifact) (model_predict : List ℚ → ℚ)
    (model_predict_proba : Option (List ℚ → List ℚ))
    (features : List (String × FeatVal)) : Except HttpError PredictOutput :=
  match predict_preprocess art features with
  | .error e => .error e
  | .ok (input_data, input_data_scaled) =>
    .ok { prediction := model_predict input_data_scaled
          probabilities :=
            if art.problem_type == "classification" then
              model_predict_proba.map (fun f => f input_data)
            else none }

lemma encodeRowLegacy_ok (features : List (String × FeatVal)) :
    ∀ (cols : List String) (row : List ℚ),
      encodeRowLegacy features cols = .ok row →
      ∀ col ∈ cols, ∃ v q, featLookup features col = some v ∧
        to_numeric_feat v = some q := by
  intro cols
  induction cols with
  | nil => intro row _ col hcol; cases hcol
  | cons c cs ih =>
    intro row h col hcol
    cases hl : featLookup features c with
    | none => simp [encodeRowLegacy, hl] at h
    | some v =>
      cases hn : to_numeric_feat v with
      | none => simp [encodeRowLegacy, hl, hn] at h
      | some q =>
        cases hrec : encodeRowLegacy features cs with
        | error e => simp [encodeRowLegacy, hl, hn, hrec, Except.map] at h
        | ok rest =>
          rcases List.mem_cons.mp hcol with hc | hc
          · exact hc ▸ ⟨v, q, hl, hn⟩
          · exact ih rest hrec col hc

lemma encodeRowLegacy_error_at (features : List (String × FeatVal)) :
    ∀ (pre : List String) (col : String) (post : List String) (v : FeatVal),
      (∀ c ∈ pre, ∃ vc qc, featLookup features c = some vc ∧
        to_numeric_feat vc = some qc) →
      featLookup features col = some v → to_numeric_feat v = none →
      encodeRowLegacy features (pre ++ col :: post) =
        .error (legacyNonNumericError col v) := by
  intro pre
  induction pre with
  | nil =>
    intro col post v _ hv hn
    simp [encodeRowLegacy, hv, hn]
  | cons c cs ih =>
    intro col post v hpre hv hn
    obtain ⟨vc, qc, hvc, hqc⟩ := hpre c (List.mem_cons_self _ _)
    have hrest := ih col post v
      (fun c' hc' => hpre c' (List.mem_cons_of_mem _ hc')) hv hn
    simp [encodeRowLegacy, hvc, hqc, hrest, Except.map]

lemma encodeRowNew_error_at (encoders : List (String × LabelEnc))
    (features : List (String × FeatVal)) :
    ∀ (pre : List String) (col : String) (post : List String) (v : FeatVal)
      (e : HttpError),
      (∀ c ∈ pre, ∃ vc qc, featLookup features c = some vc ∧
        encode_feature encoders c vc = .ok qc) →
      featLookup features col = some v →
      encode_feature encoders col v = .error e →
      encodeRowNew encoders features (pre ++ col :: post) = .error e := by
  intro pre
  induction pre with
  | nil =>
    intro col post v e _ hv he
    simp [encodeRowNew, hv, he]
  | cons c cs ih =>
    intro col post v e hpre hv he
    obtain ⟨vc, qc, hvc, hqc⟩ := hpre c (List.mem_cons_self _ _)
    have hrest := ih col post v e
      (fun c' hc' => hpre c' (List.mem_cons_of_mem _ hc')) hv he
    simp [encodeRowNew, hvc, hqc, hrest, Except.map]

lemma encodeRowNew_ok_split (encoders : List (String × LabelEnc))
    (features : List (String × FeatVal)) :
    ∀ (pre : List String) (col : String) (post : List String) (row : List ℚ)
      (v : FeatVal) (q : ℚ),
      featLookup features col = some v →
      encode_feature encoders col v = .ok q →
      encodeRowNew encoders features (pre ++ col :: post) = .ok row →
      ∃ rpre rpost, row = rpre ++ q :: rpost ∧ rpre.length = pre.length := by
  intro pre
  induction pre with
  | nil =>
    intro col post row v q hv hq hrow
    cases hrec : encodeRowNew encoders features post with
    | error e => simp [encodeRowNew, hv, hq, hrec, Except.map] at hrow
    | ok rest =>
      have hform : encodeRowNew encoders features ([] ++ col :: post) =
          .ok (q :: rest) := by
        simp [encodeRowNew, hv, hq, hrec, Except.map]
      have heq := hform.symm.trans hrow
      injection heq with heq
      exact ⟨[], rest, heq.symm, rfl⟩
  | cons c cs ih =>
    intro col post row v q hv hq hrow
    cases hl : featLookup features c with
    | none => simp [encodeRowNew, hl] at hrow
    | some vc =>
      cases hec : encode_feature encoders c vc with
      | error e => simp [encodeRowNew, hl, hec] at hrow
      | ok qc =>
        cases hrec : encodeRowNew encoders features (cs ++ col :: post) with
        | error e => simp [encodeRowNew, hl, hec, hrec, Except.map] at hrow
        | ok rest =>
          have hform : encodeRowNew encoders features ((c :: cs) ++ col :: post) =
              .ok (qc :: rest) := by
            simp [encodeRowNew, hl, hec, hrec, Except.map]
          have heq := hform.symm.trans hrow
          injection heq with heq
          obtain ⟨rpre, rpost, hsplit, hlen⟩ := ih col post rest v q hv hq hrec
          exact ⟨qc :: rpre, rpost, by simp [← heq, hsplit], by simp [hlen]⟩

lemma predict_preprocess_ok_row (art : ModelArtifact)
    (features : List (String × FeatVal)) (o1 o2 : List ℚ)
    (hne : art.label_encoders ≠ [])
    (h : predict_preprocess art features = .ok (o1, o2)) :
    encodeRowNew art.label_encoders features art.input_columns = .ok o1 ∧
    (∀ f, art.scaler = some f → o2 = f o1) ∧
    (art.scaler = none → o2 = o1) := by
  have hempty : art.label_encoders.isEmpty = false := by
    cases hle : art.label_encoders with
    | nil => exact absurd hle hne
    | cons p ps => rfl
  cases hchk : check_features features art.input_columns with
  | error e => simp [predict_preprocess, hchk] at h
  | ok u =>
    cases hrow : encodeRowNew art.label_encoders features art.input_columns with
    | error e => simp [predict_preprocess, hchk, hempty, hrow] at h
    | ok row =>
      cases hs : art.scaler with
      | none =>
        have hform : predict_preprocess art features = .ok (row, row) := by
          simp [predict_preprocess, hchk, hempty, hrow, hs]
        have heq := hform.symm.trans h
        injection heq with heq
        injection heq with h1 h2
        subst h1
        subst h2
        exact ⟨rfl, fun f hf => Option.noConfusion hf, fun _ => rfl⟩
      | some f =>
        have hform : predict_preprocess art features = .ok (row, f row) := by
          simp [predict_preprocess, hchk, hempty, hrow, hs]
        have heq := hform.symm.trans h
        injection heq with heq
        injection heq with h1 h2
        subst h1
        subst h2
        refine ⟨rfl, ?_, fun hn => Option.noConfusion hn⟩
        intro g hg
        injection hg with hg
        rw [hg]

/-- C3: with every required feature supplied, if the artifact's encoder
map is empty (legacy artifact) then a successful preprocessing implies
every supplied value was already numeric, the first non-numeric value is
rejected with a 400 error naming its column, and the scaler is never
applied (`input_data_scaled = input_data`); if encoders are present then
after per-column encoding the stored scaler, whenever present, is applied
to the encoded row, and the model's prediction call receives that scaled
row. -/
theorem predict_encoding_and_scaler (art : ModelArtifact)
    (features : List (String × FeatVal))
    (hcheck : check_features features art.input_columns = .ok ()) :
    (art.label_encoders = [] →
      (∀ out, predict_preprocess art features = .ok out →
        out.2 = out.1 ∧
        ∀ col ∈ art.input_columns,
          ∃ v q, featLookup features col = some v ∧ to_numeric_feat v = some q) ∧
      (∀ pre col post v, art.input_columns = pre ++ col :: post →
        (∀ c ∈ pre, ∃ vc qc, featLookup features c = some vc ∧
          to_numeric_feat vc = some qc) →
        featLookup features col = some v → to_numeric_feat v = none →
        predict_preprocess art features =
          .error (legacyNonNumericError col v))) ∧
    (art.label_encoders ≠ [] →
      ∀ f row, art.scaler = some f →
        encodeRowNew art.label_encoders features art.input_columns = .ok row →
        predict_preprocess art features = .ok (row, f row) ∧
        ∀ mp mpp, ∃ o, predict_run art mp mpp features = .ok o ∧
          o.prediction = mp (f row)) := by
  constructor
  · intro hle
    have hempty : art.label_encoders.isEmpty = true := by rw [hle]; rfl
    constructor
    · intro out hout
      obtain ⟨o1, o2⟩ := out
      cases hrow : encodeRowLegacy features art.input_columns with
      | error e => simp [predict_preprocess, hcheck, hempty, hrow] at hout
      | ok row =>
        have hform : predict_preprocess art features = .ok (row, row) := by
          simp [predict_preprocess, hcheck, hempty, hrow]
        have heq := hform.symm.trans hout
        injection heq with heq
        injection heq with h1 h2
        subst h1
        subst h2
        exact ⟨rfl, encodeRowLegacy_ok features art.input_columns row hrow⟩
    · intro pre col post v hcols hpre hv hn
      have herr := encodeRowLegacy_error_at features pre col post v hpre hv hn
      rw [← hcols] at herr
      simp [predict_preprocess, hcheck, hempty, herr]
  · intro hne f row hf hrow
    have hempty : art.label_encoders.isEmpty = false := by
      cases hle : art.label_encoders with
      | nil => exact absurd hle hne
      | cons p ps => rfl
    have hpp : predict_preprocess art features = .ok (row, f row) := by
      simp [predict_preprocess, hcheck, hempty, hrow, hf]
    refine ⟨hpp, fun mp mpp => ?_⟩
    refine ⟨{ prediction := mp (f row),
              probabilities :=
                if art.problem_type == "classification" then
                  mpp.map (fun g => g row)
                else none }, ?_, rfl⟩
    simp [predict_run, hpp]

/-- C4: with encoders present and every required feature supplied, a
column holding a stored encoder rejects a value never seen in training
with the 400 error that names the column and lists the (truncated)
vocabulary — assuming the columns before it encode successfully, since
the loop stops at the first failure — and maps a value seen in training
to its training-time integer code (its index in the stored `classes_`),
placed at the column's position in the encoded row. -/
theorem predict_rejects_unseen_categorical (art : ModelArtifact)
    (features : List (String × FeatVal)) (pre : List String) (col : String)
    (post : List String) (enc : LabelEnc) (v : FeatVal)
    (hne : art.label_encoders ≠ [])
    (hcols : art.input_columns = pre ++ col :: post)
    (hcheck : check_features features art.input_columns = .ok ())
    (henc : encoderFor art.label_encoders col = some enc)
    (hv : featLookup features col = some v) :
    (pyStr v ∉ enc.classes →
      (∀ c ∈ pre, ∃ vc qc, featLookup features c = some vc ∧
        encode_feature art.label_encoders c vc = .ok qc) →
      predict_preprocess art features =
        .error (unseenValueError (pyStr v) col enc.classes)) ∧
    (pyStr v ∈ enc.classes →
      encode_feature art.label_encoders col v =
        .ok ((enc.classes.indexOf (pyStr v) : ℕ) : ℚ) ∧
      ∀ out, predict_preprocess art features = .ok out →
        ∃ rpre rpost,
          out.1 = rpre ++ ((enc.classes.indexOf (pyStr v) : ℕ) : ℚ) :: rpost ∧
          rpre.length = pre.length) := by
  have hempty : art.label_encoders.isEmpty = false := by
    cases hle : art.label_encoders with
    | nil => exact absurd hle hne
    | cons p ps => rfl
  constructor
  · intro hunseen hpre
    have hef : encode_feature art.label_encoders col v =
        .error (unseenValueError (pyStr v) col enc.classes) := by
      simp [encode_feature, henc, hunseen]
    have herr := encodeRowNew_error_at art.label_encoders features pre col post v
      _ hpre hv hef
    rw [← hcols] at herr
    simp [predict_preprocess, hcheck, hempty, herr]
  · intro hseen
    have hef : encode_feature art.label_encoders col v =
        .ok ((enc.classes.indexOf (pyStr v) : ℕ) : ℚ) := by
      simp [encode_feature, henc, hseen, encTransform]
    refine ⟨hef, fun out hout => ?_⟩
    obtain ⟨o1, o2⟩ := out
    have hrow := (predict_preprocess_ok_row art features o1 o2 hne hout).1
    rw [hcols] at hrow
    exact encodeRowNew_ok_split art.label_encoders features pre col post o1
      v _ hv hef hrow

/-- C9 (implicit): for a classification artifact whose model supports
probability output, `predict` computes the returned probabilities from
the encoded but UN-scaled row (`input_data`) while the returned
prediction is computed from the scaled row (`input_data_scaled`); when a
scaler is stored (encoders present) those are `d` and `f d` — two
different inputs to the model whenever `f d ≠ d`. -/
theorem predict_proba_uses_unscaled_row (art : ModelArtifact)
    (mp : List ℚ → ℚ) (g : List ℚ → List ℚ)
    (features : List (String × FeatVal)) (d ds : List ℚ)
    (hclass : art.problem_type = "classification")
    (hpp : predict_preprocess art features = .ok (d, ds)) :
    predict_run art mp (some g) features =
      .ok ⟨mp ds, some (g d)⟩ ∧
    (art.label_encoders ≠ [] → ∀ f, art.scaler = some f → ds = f d) := by
  constructor
  · simp [predict_run, hpp, hclass]
  · intro hne f hs
    exact (predict_preprocess_ok_row art features d ds hne hpp).2.1 f hs

/-- A legacy artifact: one numeric input column, no stored encoders. -/
def legacyArtifact : ModelArtifact := ⟨["age"], [], none, "regression"⟩

/-- A stored encoder with training vocabulary `["London", "Paris"]`. -/
def cityEnc : LabelEnc := ⟨["London", "Paris"]⟩

/-- Encoder map of the sample classification artifact. -/
def cityEncoders : List (String × LabelEnc) := [("city", cityEnc)]

/-- A concrete stored scaler: doubles every feature (so scaling visibly
changes the row). -/
def doubler : List ℚ → List ℚ := fun row => row.map (fun x => 2 * x)

/-- A classification artifact with one encoded column and a stored
scaler. -/
def cityArtifact : ModelArtifact :=
  ⟨["city"], cityEncoders, some doubler, "classification"⟩

/-- Witness for C3: a legacy artifact rejects the non-numeric value
`"abc"` with the error naming column `age`, and the encoder-carrying
artifact applies its stored scaler to the encoded row before the
prediction call. -/
theorem predict_encoding_and_scaler_witness :
    predict_preprocess legacyArtifact [("age", FeatVal.str "abc")] =
      .error (legacyNonNumericError "age" (FeatVal.str "abc")) ∧
    predict_preprocess cityArtifact [("city", FeatVal.str "Paris")] =
      .ok ([1], doubler [1]) ∧
    (∃ o, predict_run cityArtifact (fun row => row.headD 0) none
        [("city", FeatVal.str "Paris")] = .ok o ∧
      o.prediction = (fun row => row.headD 0) (doubler [1])) := by
  have h1 := predict_encoding_and_scaler legacyArtifact
    [("age", FeatVal.str "abc")] rfl
  have h2 := predict_encoding_and_scaler cityArtifact
    [("city", FeatVal.str "Paris")] rfl
  have herr := (h1.1 rfl).2 [] "age" [] (FeatVal.str "abc") rfl
    (by simp) rfl rfl
  have hok := h2.2 (by simp [cityArtifact, cityEncoders]) doubler [1] rfl rfl
  exact ⟨herr, hok.1, hok.2 (fun row => row.headD 0) none⟩

/-- Witness for C4: the value `"Tokyo"`, unseen in training, is rejected
with the vocabulary-listing error naming `city`; the trained value
`"Paris"` maps to its training-time code 1 and lands at the column's
position in the encoded row. -/
theorem predict_rejects_unseen_categorical_witness :
    predict_preprocess cityArtifact [("city", FeatVal.str "Tokyo")] =
      .error (unseenValueError "Tokyo" "city" ["London", "Paris"]) ∧
    encode_feature cityEncoders "city" (FeatVal.str "Paris") = .ok 1 ∧
    (∃ rpre rpost, ([1] : List ℚ) =
        rpre ++ ((cityEnc.classes.indexOf "Paris" : ℕ) : ℚ) :: rpost ∧
      rpre.length = ([] : List String).length) := by
  have hTokyo := predict_rejects_unseen_categorical cityArtifact
    [("city", FeatVal.str "Tokyo")] [] "city" [] cityEnc (FeatVal.str "Tokyo")
    (by simp [cityArtifact, cityEncoders]) rfl rfl rfl rfl
  have hParis := predict_rejects_unseen_categorical cityArtifact
    [("city", FeatVal.str "Paris")] [] "city" [] cityEnc (FeatVal.str "Paris")
    (by simp [cityArtifact, cityEncoders]) rfl rfl rfl rfl
  have hseen := hParis.2 (by decide)
  refine ⟨?_, ?_, ?_⟩
  · exact hTokyo.1 (by decide) (by simp)
  · have := hseen.1
    simpa [cityArtifact, cityEnc, encTransform] using this
  · exact hseen.2 ([1], doubler [1]) rfl

/-- Witness for C9: with the doubling scaler stored, the returned
prediction is computed on the scaled row `doubler [1] = [2]` while the
returned probabilities are computed on the un-scaled encoded row `[1]` —
two different model inputs. -/
theorem predict_proba_uses_unscaled_row_witness :
    predict_run cityArtifact (fun row => row.headD 0) (some (fun r => r))
        [("city", FeatVal.str "Paris")] =
      .ok ⟨(doubler [1]).headD 0, some [1]⟩ ∧
    doubler [1] = [2] := by
  have h := predict_proba_uses_unscaled_row cityArtifact
    (fun row => row.headD 0) (fun r => r)
    [("city", FeatVal.str "Paris")] [1] (doubler [1]) rfl rfl
  exact ⟨h.1, by norm_num [doubler]⟩

/-- Matches the regex body `\d*\.?\d+` at the head of `cs`, greedily with
backtracking as Python's `re` does: an optional integer part, then either
a dot followed by at least one digit (consuming the fractional digits),
or — when the dot is absent or not followed by a digit — the nonempty
integer part alone. -/
def matchNumberBody (cs : List Char) : Option (List Char) :=
  let ds := cs.takeWhile (fun c => c.isDigit)
  let rest := cs.dropWhile (fun c => c.isDigit)
  match rest with
  | '.' :: rest2 =>
    let fs := rest2.takeWhile (fun c => c.isDigit)
    if fs.isEmpty then
      if ds.isEmpty then none else some ds
    else some (ds ++ '.' :: fs)
  | _ => if ds.isEmpty then none else some ds

/-- Matches `[-+]?\d*\.?\d+` anchored at the head of `cs`: an optional
sign (after which the body must match; backtracking to the signless
alternative cannot succeed, since the sign character is neither digit nor
dot) and the number body. -/
def matchNumberAt (cs : List Char) : Option (List Char) :=
  match cs with
  | '-' :: rest => (matchNumberBody rest).map (fun t => '-' :: t)
  | '+' :: rest => (matchNumberBody rest).map (fun t => '+' :: t)
  | _ => matchNumberBody cs

/-- `re.search` for `[-+]?\d*\.?\d+`: the leftmost match anywhere in the
string (`pandas.Series.str.extract` returns the first capture group of
the first match). -/
def searchNumber : List Char → Option (List Char)
  | [] => none
  | c :: cs =>
    match matchNumberAt (c :: cs) with
    | some t => some t
    | none => searchNumber cs

/-- `utils.py` line 68: extract the first numeric substring of `s` and
convert it (`pd.to_numeric` on the extracted token always succeeds). -/
def extract_first_number (s : String) : Option ℚ :=
  (searchNumber s.data).bind (fun t => parseDecimal (String.mk t))

/-- `y.astype(str)` then `.str.extract(...)` then `pd.to_numeric` on one
cell.  In the reachable state (the extraction branch) every cell is a
string: a numeric cell would already have satisfied the direct coercion,
keeping this branch from running. -/
def extract_numeric_cell (v : FeatVal) : Option ℚ :=
  extract_first_number (pyStr v)

/-- Whether a cell is a string. -/
def isStrVal : FeatVal → Bool
  | .str _ => true
  | .num _ => false

/-- `y.dtype == 'object'` (`utils.py` line 66): a pandas column has dtype
`object` exactly when it holds non-numeric entries (rows with a missing
target were dropped before this point). -/
def seriesIsObject (y : List FeatVal) : Bool :=
  y.any isStrVal

/-- `y_numeric.notna().sum()`: how many values converted. -/
def countValid (l : List (Option ℚ)) : ℕ :=
  (l.filterMap id).length

/-- `utils.py` lines 80-82: drop the rows whose target value did not
convert (`valid_mask`) and align the feature matrix to the survivors
(`X.loc[valid_mask]`). -/
def maskFilter (y_numeric : List (Option ℚ)) (X : List (List ℚ)) :
    List ℚ × List (List ℚ) :=
  let kept := (y_numeric.zip X).filterMap
    (fun p => p.1.map (fun q => (q, p.2)))
  (kept.map Prod.fst, kept.map Prod.snd)

/-- `utils.py` lines 73-77: the validation error raised when no target
value converts, naming the output column and the value count. -/
def errMsgAllInvalid (output_column : String) (total : ℕ) : String :=
  "All values in the output column '" ++ output_column ++
    "' are invalid for regression. Found " ++ toString total ++
    " values, but none could be converted to numeric. " ++
    "Please ensure your output column contains numeric values for regression."

/-- The regression-target branch of `utils.preprocess_data` (lines
54-85): coerce the target to numeric; only when zero values convert, and
the column is of `object` dtype, try extracting the first numeric
substring of each string; if still nothing converts raise the validation
error; otherwise drop the non-converting rows and realign `X`. -/
def preprocess_regression_target (output_column : String) (y : List FeatVal)
    (X : List (List ℚ)) : Except String (List ℚ × List (List ℚ)) :=
  let y_numeric := y.map to_numeric_feat
  if countValid y_numeric = 0 then
    let y_numeric2 :=
      if seriesIsObject y then y.map extract_numeric_cell else y_numeric
    if countValid y_numeric2 = 0 then
      .error (errMsgAllInvalid output_column y.length)
    else
      .ok (maskFilter y_numeric2 X)
  else
    .ok (maskFilter y_numeric X)

lemma countValid_map_eq_zero (f : FeatVal → Option ℚ) (y : List FeatVal) :
    countValid (y.map f) = 0 ↔ ∀ v ∈ y, f v = none := by
  unfold countValid
  rw [List.length_eq_zero, List.filterMap_map]
  simp [List.filterMap_eq_nil_iff]

lemma zipUnzip (l : List (ℚ × List ℚ)) :
    (l.map Prod.fst).zip (l.map Prod.snd) = l := by
  induction l with
  | nil => rfl
  | cons p ps ih => simp [ih]

lemma maskFilter_len (yn : List (Option ℚ)) (X : List (List ℚ)) :
    (maskFilter yn X).1.length = (maskFilter yn X).2.length := by
  simp [maskFilter]

lemma maskFilter_zip (yn : List (Option ℚ)) (X : List (List ℚ)) :
    ((maskFilter yn X).1).zip ((maskFilter yn X).2) =
      (yn.zip X).filterMap (fun p => p.1.map (fun q => (q, p.2))) := by
  unfold maskFilter
  exact zipUnzip _

lemma map_zip_filterMap (conv : FeatVal → Option ℚ) (y : List FeatVal) :
    ∀ X : List (List ℚ),
      ((y.map conv).zip X).filterMap (fun p => p.1.map (fun q => (q, p.2))) =
        (y.zip X).filterMap (fun p => (conv p.1).map (fun q => (q, p.2))) := by
  induction y with
  | nil => intro X; rfl
  | cons v vs ih =>
    intro X
    cases X with
    | nil => rfl
    | cons x xs =>
      cases hc : conv v <;> simp [List.filterMap_cons, hc, ih xs]

lemma all_str_of_direct_fail (y : List FeatVal)
    (hall : ∀ v ∈ y, to_numeric_feat v = none) :
    ∀ v ∈ y, isStrVal v = true := by
  intro v hv
  cases v with
  | num q => exact absurd (hall _ hv) (by simp [to_numeric_feat])
  | str s => rfl

/-- C8: in `preprocess_data` with problem type regression,
(i) when direct coercion converts at least one value, the result is the
direct coercion filtered to the converting rows (the numeric-substring
extraction is never consulted);
(ii) only when direct coercion yields zero valid values is the extraction
attempted, and if it converts something, the result is the extraction
filtered to its converting rows;
(iii) if still no values convert the branch raises the validation error
naming the output column;
(iv) every successful result has target and feature matrix of equal
length, the surviving (target, row) pairs being exactly the input pairs
whose target converted, in order. -/
theorem regression_target_preprocessing (output_column : String)
    (y : List FeatVal) (X : List (List ℚ)) :
    ((∃ v ∈ y, to_numeric_feat v ≠ none) →
      preprocess_regression_target output_column y X =
        .ok (maskFilter (y.map to_numeric_feat) X)) ∧
    ((∀ v ∈ y, to_numeric_feat v = none) →
      (∃ v ∈ y, extract_numeric_cell v ≠ none) →
      preprocess_regression_target output_column y X =
        .ok (maskFilter (y.map extract_numeric_cell) X)) ∧
    ((∀ v ∈ y, to_numeric_feat v = none) →
      (∀ v ∈ y, extract_numeric_cell v = none) →
      preprocess_regression_target output_column y X =
        .error (errMsgAllInvalid output_column y.length)) ∧
    (∀ ys xs, preprocess_regression_target output_column y X = .ok (ys, xs) →
      ys.length = xs.length ∧
      ∃ conv, (conv = to_numeric_feat ∨ conv = extract_numeric_cell) ∧
        ys.zip xs = (y.zip X).filterMap
          (fun p => (conv p.1).map (fun q => (q, p.2)))) := by
  refine ⟨?_, ?_, ?_, ?_⟩
  · intro hex
    have h1 : ¬ countValid (y.map to_numeric_feat) = 0 := by
      rw [countValid_map_eq_zero]
      intro hall
      obtain ⟨v, hv, hne⟩ := hex
      exact hne (hall v hv)
    simp [preprocess_regression_target, h1]
  · intro hall hex
    have h1 : countValid (y.map to_numeric_feat) = 0 :=
      (countValid_map_eq_zero _ _).mpr hall
    obtain ⟨v, hv, hne⟩ := hex
    have hobj : seriesIsObject y = true :=
      List.any_eq_true.mpr ⟨v, hv, all_str_of_direct_fail y hall v hv⟩
    have h2 : ¬ countValid (y.map extract_numeric_cell) = 0 := by
      rw [countValid_map_eq_zero]
      intro hall2
      exact hne (hall2 v hv)
    simp [preprocess_regression_target, h1, hobj, h2]
  · intro hall hall2
    have h1 : countValid (y.map to_numeric_feat) = 0 :=
      (countValid_map_eq_zero _ _).mpr hall
    have h2 : countValid (y.map extract_numeric_cell) = 0 :=
      (countValid_map_eq_zero _ _).mpr hall2
    cases hobj : seriesIsObject y with
    | true => simp [preprocess_regression_target, h1, hobj, h2]
    | false => simp [preprocess_regression_target, h1, hobj]
  · intro ys xs hok
    by_cases h1 : countValid (y.map to_numeric_feat) = 0
    · by_cases hobj : seriesIsObject y = true
      · by_cases h2 : countValid (y.map extract_numeric_cell) = 0
        · have : preprocess_regression_target output_column y X =
              .error (errMsgAllInvalid output_column y.length) := by
            simp [preprocess_regression_target, h1, hobj, h2]
          rw [this] at hok
          exact Except.noConfusion hok
        · have hform : preprocess_regression_target output_column y X =
              .ok (maskFilter (y.map extract_numeric_cell) X) := by
            simp [preprocess_regression_target, h1, hobj, h2]
          have heq := hform.symm.trans hok
          injection heq with heq
          have hys : (maskFilter (y.map extract_numeric_cell) X).1 = ys := by
            rw [heq]
          have hxs : (maskFilter (y.map extract_numeric_cell) X).2 = xs := by
            rw [heq]
          refine ⟨?_, extract_numeric_cell, Or.inr rfl, ?_⟩
          · rw [← hys, ← hxs]
            exact maskFilter_len _ _
          · rw [← hys, ← hxs, maskFilter_zip, map_zip_filterMap]
      · have hobj' : seriesIsObject y = false := by
          cases h : seriesIsObject y
          · rfl
          · exact absurd h hobj
        have : preprocess_regression_target output_column y X =
            .error (errMsgAllInvalid output_column y.length) := by
          simp [preprocess_regression_target, h1, hobj']
        rw [this] at hok
        exact Except.noConfusion hok
    · have hform : preprocess_regression_target output_column y X =
          .ok (maskFilter (y.map to_numeric_feat) X) := by
        simp [preprocess_regression_target, h1]
      have heq := hform.symm.trans hok
      injection heq with heq
      have hys : (maskFilter (y.map to_numeric_feat) X).1 = ys := by
        rw [heq]
      have hxs : (maskFilter (y.map to_numeric_feat) X).2 = xs := by
        rw [heq]
      refine ⟨?_, to_numeric_feat, Or.inl rfl, ?_⟩
      · rw [← hys, ← hxs]
        exact maskFilter_len _ _
      · rw [← hys, ← hxs, maskFilter_zip, map_zip_filterMap]

/-- Witness for C8 at three closed inputs: a target with one directly
convertible value keeps exactly that row; a target of strings whose only
digits sit mid-string is recovered through extraction; a target with no
digits at all raises the error naming the column. -/
theorem regression_target_preprocessing_witness :
    preprocess_regression_target "price" [FeatVal.str "abc", FeatVal.num 7]
        [[1], [2]] =
      .ok (maskFilter ([FeatVal.str "abc", FeatVal.num 7].map to_numeric_feat)
        [[1], [2]]) ∧
    maskFilter ([FeatVal.str "abc", FeatVal.num 7].map to_numeric_feat)
        [[1], [2]] = ([7], [[2]]) ∧
    preprocess_regression_target "price" [FeatVal.str "abc5"] [[3]] =
      .ok (maskFilter ([FeatVal.str "abc5"].map extract_numeric_cell) [[3]]) ∧
    maskFilter ([FeatVal.str "abc5"].map extract_numeric_cell) [[3]] =
      ([5], [[3]]) ∧
    preprocess_regression_target "price" [FeatVal.str "abc"] [[4]] =
      .error (errMsgAllInvalid "price" 1) := by
  have h1 := regression_target_preprocessing "price"
    [FeatVal.str "abc", FeatVal.num 7] [[1], [2]]
  have h2 := regression_target_preprocessing "price" [FeatVal.str "abc5"] [[3]]
  have h3 := regression_target_preprocessing "price" [FeatVal.str "abc"] [[4]]
  exact ⟨h1.1 (by decide), by decide,
    h2.2.1 (by decide) (by decide), by decide,
    h3.2.2.1 (by decide) (by decide)⟩

end MLModelBuilder
